import Mathlib

/-!
Verification of the paginated site crawler in `parse_web.py`
(repository `Lucky-draw-for-our-lunch`).

The development shallowly embeds the crawler's pure core:

* `pyStrip`, `pySplit`-style helpers mirror the Python `str` methods used;
* `Node` is a first-child / next-sibling encoding of the parsed HTML tree
  produced by `lxml.etree.HTML`; the XPath queries of `extract_shops` and
  `get_next_page_url` are embedded as document-order traversals over it;
* `loadHtml` embeds the retry loop of `load_html` (network responses are an
  oracle `Nat → HttpResp`, sleeps are recorded as rational durations);
* `urljoinPy` embeds CPython's `urllib.parse.urljoin` (see its doc comment
  for the exact scope of the model);
* `crawlLoop` embeds the `main` crawl loop (fetching and HTML parsing are
  oracles, CSV rows are recorded as `List String` values).
-/

/-! ### Python string helpers -/

/-- The whitespace characters stripped by Python's `str.strip()` (ASCII
range; the crawler's data never contains the more exotic Unicode spaces). -/
def isPySpace (c : Char) : Bool :=
  c == ' ' || c == '\t' || c == '\n' || c == '\r' || c == '\x0b' || c == '\x0c'

/-- Python `s.strip()`: remove leading and trailing whitespace. -/
def pyStrip (s : String) : String :=
  ⟨((s.data.dropWhile isPySpace).reverse.dropWhile isPySpace).reverse⟩

/-- Substring occurrence test on character lists (`needle` occurs in the
list). Mirrors Python's `needle in hay`. -/
def charsContain (needle : List Char) : List Char → Bool
  | [] => needle.isEmpty
  | c :: t => needle.isPrefixOf (c :: t) || charsContain needle t

/-- Python `sub in s` for strings. -/
def strContainsSub (s sub : String) : Bool :=
  charsContain sub.data s.data

/-! ### The parsed HTML tree

`lxml` parses the fetched page into an element tree.  We embed trees in
first-child / next-sibling form, which keeps every traversal structurally
recursive: `nil` is an empty forest, and each constructor carries the
following sibling.  Attributes are an association list (first binding
wins, as attributes are unique in a parsed tree). -/

inductive Node where
  | nil : Node
  | text (s : String) (sib : Node) : Node
  | elem (tag : String) (attrs : List (String × String)) (child : Node) (sib : Node) : Node
deriving Repr, DecidableEq

/-- The `class` attribute of an element, `""` when absent (XPath's
`contains(@class, …)` treats a missing attribute as the empty string). -/
def classOf (attrs : List (String × String)) : String :=
  (List.lookup "class" attrs).getD ""

/-- Does some element of the forest (any depth) satisfy `p`? -/
def hasElemPred (p : String → List (String × String) → Bool) : Node → Bool
  | .nil => false
  | .text _ sib => hasElemPred p sib
  | .elem t a child sib => p t a || hasElemPred p child || hasElemPred p sib

/-- Document-order collection of the text *children* of elements selected
by `P`, where the selected element must additionally have a strict
ancestor (inside the forest) satisfying `Q` — the shape shared by the
three XPath queries of `extract_shops`.  `parentSel` says whether the
current forest's parent element was selected; `underQ` says whether some
ancestor already satisfied `Q`. -/
def collectTexts (P Q : String → List (String × String) → Bool) :
    Bool → Bool → Node → List String
  | _, _, .nil => []
  | parentSel, underQ, .text s sib =>
      (if parentSel then [s] else []) ++ collectTexts P Q parentSel underQ sib
  | parentSel, underQ, .elem t a child sib =>
      collectTexts P Q (P t a && underQ) (underQ || Q t a) child
        ++ collectTexts P Q parentSel underQ sib

/-- Tag predicate for `h4` elements. -/
def isH4Tag (t : String) (_ : List (String × String)) : Bool := t == "h4"

/-- Always-true element predicate (no ancestor condition). -/
def anyElem (_ : String) (_ : List (String × String)) : Bool := true

/-- `a` elements whose class contains `mean-price`. -/
def isMeanPriceAnchor (t : String) (a : List (String × String)) : Bool :=
  t == "a" && strContainsSub (classOf a) "mean-price"

/-- Tag predicate for `b` elements. -/
def isBTag (t : String) (_ : List (String × String)) : Bool := t == "b"

/-- `div` elements whose class contains `recommend`. -/
def isRecommendDiv (t : String) (a : List (String × String)) : Bool :=
  t == "div" && strContainsSub (classOf a) "recommend"

/-- `a` elements whose class contains `recommend-click`. -/
def isRecommendClickAnchor (t : String) (a : List (String × String)) : Bool :=
  t == "a" && strContainsSub (classOf a) "recommend-click"

/-- `li.xpath('.//h4/text()')`: text children of `h4` descendants of the
candidate block, in document order (`c` is the block's child forest). -/
def h4Texts (c : Node) : List String :=
  collectTexts isH4Tag anyElem false true c

/-- `li.xpath('.//a[contains(@class, "mean-price")]//b/text()')`. -/
def meanPriceTexts (c : Node) : List String :=
  collectTexts isBTag isMeanPriceAnchor false false c

/-- `li.xpath('.//div[contains(@class, "recommend")]//a[contains(@class,
"recommend-click")]/text()')`. -/
def recommendTexts (c : Node) : List String :=
  collectTexts isRecommendClickAnchor isRecommendDiv false false c

/-- One extracted listing entry, as the dict built by `extract_shops`. -/
structure Shop where
  name : String
  avg_price : String
  recommended_dishes : List String
deriving Repr, DecidableEq

/-- The body of `extract_shops`' loop for one candidate `li` block
(given as its child forest): skip the block when `.//h4/text()` is empty,
otherwise build the record from the three queries. -/
def shopOfForest (c : Node) : Option Shop :=
  match h4Texts c with
  | [] => none
  | t :: _ =>
    some
      { name := pyStrip t
        avg_price :=
          match meanPriceTexts c with
          | [] => ""
          | p :: _ => pyStrip p
        recommended_dishes := ((recommendTexts c).map pyStrip).filter (· ≠ "") }

/-- `document.xpath('//li[.//h4]')`: child forests of all `li` elements
(any depth, document order) that have an `h4` descendant. -/
def liCandidates : Node → List Node
  | .nil => []
  | .text _ sib => liCandidates sib
  | .elem t _ child sib =>
      (if t == "li" && hasElemPred isH4Tag child then [child] else [])
        ++ liCandidates child ++ liCandidates sib

/-- `extract_shops(html_text)`: `none` stands for `etree.HTML` returning
`None` (unparseable text), in which case the empty list is returned. -/
def extract_shops (doc : Option Node) : List Shop :=
  match doc with
  | none => []
  | some root => (liCandidates root).filterMap shopOfForest

/-! ### Cookie parsing (`_format_cookies`) -/

/-- Python `s.split(sep)` for a single-character separator, on character
lists: `"" ↦ [""]`, empty segments are kept. -/
def pySplitChars (sep : Char) : List Char → List (List Char)
  | [] => [[]]
  | c :: t =>
    if c == sep then [] :: pySplitChars sep t
    else
      match pySplitChars sep t with
      | [] => [[c]]
      | h :: r => (c :: h) :: r

/-- Python `s.split(sep)` for strings (single-character separator). -/
def pySplit (s : String) (sep : Char) : List String :=
  (pySplitChars sep s.data).map (⟨·⟩)

/-- `_format_cookies(cookies_str)`: the pairs produced by the dict
comprehension `{pair.split('=')[0].strip(): pair.split('=')[1].strip()
for pair in cookies_str.split(';') if '=' in pair}`, in iteration order
(the resulting `dict` maps each key to the value of its last pair). -/
def _format_cookies (cookiesStr : String) : List (String × String) :=
  ((pySplit cookiesStr ';').filter (fun pair => strContainsSub pair "=")).map
    (fun pair =>
      (pyStrip ((pySplit pair '=').headD ""), pyStrip ((pySplit pair '=').getD 1 "")))

/-- The text of `s` before its first `'='`. -/
def beforeFirstEq (s : String) : String :=
  ⟨s.data.takeWhile (fun c => c != '=')⟩

/-- The text of `s` strictly between its first and second `'='` (up to the
end when there is no second `'='`). -/
def betweenFirstSecondEq (s : String) : String :=
  ⟨((s.data.dropWhile (fun c => c != '=')).drop 1).takeWhile (fun c => c != '=')⟩

/-- Modelled from the claim's words: drop segments without `'='`; map the
trimmed text before the first `'='` to the trimmed text between the first
and second `'='`. -/
def cookieSpecModel (cookiesStr : String) : List (String × String) :=
  (pySplit cookiesStr ';').filterMap fun seg =>
    if seg.data.contains '=' then
      some (pyStrip (beforeFirstEq seg), pyStrip (betweenFirstSecondEq seg))
    else none

/-! ### The page fetcher (`load_html`)

The network is an oracle `responses : Nat → HttpResp` giving the response
to the `attempt`-th `sess.get` call.  The fetcher's observable behaviour
is its result, how many attempts it performed, and the backoff sleeps it
executed (in seconds, as exact rationals). -/

/-- One HTTP response: a status/body pair, or a `requests` exception
(timeout, connection error) raised by `sess.get` itself. -/
inductive HttpResp where
  | mk (status : Nat) (body : String)
  | netErr (desc : String)
deriving Repr, DecidableEq

/-- The errors `load_html` can raise. -/
inductive FetchErr where
  /-- `RuntimeError('身份核实页面，Cookie 可能无效或需要更新')`. -/
  | challenge
  /-- `requests.HTTPError(msg)` carrying the observed status. -/
  | http (status : Nat) (msg : String)
  /-- a `requests` exception propagating out of `sess.get`. -/
  | net (desc : String)
  /-- `RuntimeError('Unknown error fetching page')` (unreachable arm). -/
  | unknown
deriving Repr, DecidableEq

/-- Result of a fetch: the page text, or a raised error. -/
inductive FetchResult where
  | ok (text : String)
  | err (e : FetchErr)
deriving Repr, DecidableEq

/-- Observable trace of one `load_html` call. -/
structure FetchTrace where
  result : FetchResult
  attempts : Nat
  sleeps : List ℚ
deriving Repr, DecidableEq

/-- The challenge-page signature tested by `'身份核实' not in text`. -/
def challengeMarker : String := "身份核实"

/-- The error object built for an unsuccessful HTTP response
(`resp.status_code` 200 means the body carried the challenge marker). -/
def failErrOf : HttpResp → FetchErr
  | .netErr d => .net d
  | .mk s _ =>
    if s = 200 then .challenge
    else if s = 403 ∨ s = 429 then .http s (toString s ++ " Forbidden/Too Many Requests")
    else .http s (toString s ++ " HTTP error")

/-- The retry loop of `load_html`: `rem` attempts remain, `i` attempts were
performed, `lastErr` is the Python `last_err` variable.  On exhaustion the
recorded error is raised (`unknown` when none, mirroring the final
`raise RuntimeError('Unknown error fetching page')`). -/
def loadHtmlAux (responses : Nat → HttpResp) :
    Nat → Nat → Option FetchErr → FetchTrace
  | 0, i, lastErr => ⟨.err (lastErr.getD .unknown), i, []⟩
  | rem + 1, i, _ =>
    match responses i with
    | .netErr d => ⟨.err (.net d), i + 1, []⟩
    | .mk s body =>
      if s = 200 ∧ ¬ strContainsSub body challengeMarker = true then
        ⟨.ok body, i + 1, []⟩
      else
        let e := failErrOf (.mk s body)
        if i < 2 then
          let t := loadHtmlAux responses rem (i + 1) (some e)
          ⟨t.result, t.attempts, ((3 : ℚ) / 2 + i) :: t.sleeps⟩
        else
          loadHtmlAux responses rem (i + 1) (some e)

/-- `load_html`: `for attempt in range(3)` with `last_err = None` at entry. -/
def loadHtml (responses : Nat → HttpResp) : FetchTrace :=
  loadHtmlAux responses 3 0 none

/-- An attempt that does not return: a non-200 status, or a 200 body
carrying the challenge marker (a raised network error is *not* of this
kind — it aborts the loop instead of being retried). -/
def isHttpFailure : HttpResp → Bool
  | .netErr _ => false
  | .mk s body => (s != 200) || strContainsSub body challengeMarker

/-- A 200 response whose body carries the challenge-page signature. -/
def isChallengeResp : HttpResp → Bool
  | .netErr _ => false
  | .mk s body => (s == 200) && strContainsSub body challengeMarker

/-! ### URL resolution (`urllib.parse.urljoin`)

`get_next_page_url` resolves the candidate `href` with
`urljoin(current_url, next_href)`.  The functions below embed CPython's
`urllib.parse` (`urlsplit` / `urlparse` / `urlunsplit` / `urlunparse` /
`urljoin`) for `allow_fragments=True`.  Omitted from the model: the
removal of ASCII tab/newline bytes and the `ValueError`s raised for
malformed bracketed (IPv6) netlocs and for netlocs that change under NFKC
normalization — the model is exact for URLs free of control characters,
square brackets, and non-ASCII netloc characters, and the theorems below
restrict themselves to such URLs. -/

/-- Split a character list at the first occurrence of `sep`
(`s.split(sep, 1)` / `s.find(sep)`). -/
def splitOnceChar (sep : Char) : List Char → Option (List Char × List Char)
  | [] => none
  | c :: t =>
    if c == sep then some ([], t)
    else (splitOnceChar sep t).map (fun p => (c :: p.1, p.2))

/-- `scheme_chars` of `urllib.parse`. -/
def isSchemeChar (c : Char) : Bool :=
  c.isAlpha || c.isDigit || c == '+' || c == '-' || c == '.'

/-- The scheme-extraction step of `urlsplit`: everything before the first
`':'` is a scheme when it is a nonempty ASCII-letter-initial run of
`scheme_chars`; it is returned lowercased together with the remainder. -/
def extractScheme (u : List Char) : Option (List Char × List Char) :=
  match splitOnceChar ':' u with
  | none => none
  | some (pre, post) =>
    match pre with
    | [] => none
    | c0 :: rest =>
      if c0.isAlpha && rest.all isSchemeChar then
        some ((c0 :: rest).map Char.toLower, post)
      else none

/-- Characters ending the netloc in `_splitnetloc`. -/
def isNetlocDelim (c : Char) : Bool := c == '/' || c == '?' || c == '#'

/-- Result of `urlparse`: the six URL components. -/
structure PyUrl where
  scheme : String
  netloc : String
  path : String
  params : String
  query : String
  fragment : String
deriving Repr, DecidableEq

/-- `uses_params` of `urllib.parse`. -/
def usesParams : List String :=
  ["", "ftp", "hdl", "prospero", "http", "imap", "https", "shttp", "rtsp",
   "rtspu", "sip", "sips", "mms", "sftp", "tel"]

/-- `uses_relative` of `urllib.parse`. -/
def usesRelative : List String :=
  ["", "ftp", "http", "gopher", "nntp", "imap", "wais", "file", "https",
   "shttp", "mms", "prospero", "rtsp", "rtspu", "sftp", "svn", "svn+ssh",
   "ws", "wss"]

/-- `uses_netloc` of `urllib.parse`. -/
def usesNetloc : List String :=
  ["", "ftp", "http", "gopher", "nntp", "telnet", "imap", "wais", "file",
   "mms", "https", "shttp", "snews", "prospero", "rtsp", "rtspu", "rsync",
   "svn", "svn+ssh", "sftp", "nfs", "git", "git+ssh", "ws", "wss",
   "itms-services"]

/-- Python `x in l` for a list of strings. -/
def strIn (l : List String) (s : String) : Bool := l.any (fun x => x == s)

/-- `_splitparams(url)`: split the params off the last path segment. -/
def splitParamsChars (p : List Char) : List Char × List Char :=
  if p.contains '/' then
    let afterLastSlash := (p.reverse.takeWhile (· ≠ '/')).reverse
    let pre := p.take (p.length - afterLastSlash.length)
    match splitOnceChar ';' afterLastSlash with
    | none => (p, [])
    | some (a, b) => (pre ++ a, b)
  else
    match splitOnceChar ';' p with
    | none => (p, [])
    | some (a, b) => (a, b)

/-- `urlsplit`/`urlparse` after the scheme has been settled: netloc, then
fragment, then query are split off the remainder; params are split when
the scheme uses them. -/
def urlparseAfterScheme (scheme : String) (rest : List Char) : PyUrl :=
  let netloc := if rest.take 2 = ['/', '/'] then (rest.drop 2).takeWhile (fun c => !isNetlocDelim c) else []
  let rest1 := if rest.take 2 = ['/', '/'] then (rest.drop 2).dropWhile (fun c => !isNetlocDelim c) else rest
  let (beforeFrag, fragment) :=
    match splitOnceChar '#' rest1 with
    | none => (rest1, [])
    | some (a, b) => (a, b)
  let (path0, query) :=
    match splitOnceChar '?' beforeFrag with
    | none => (beforeFrag, [])
    | some (a, b) => (a, b)
  let (path, params) :=
    if strIn usesParams scheme then splitParamsChars path0 else (path0, [])
  { scheme := scheme, netloc := ⟨netloc⟩, path := ⟨path⟩,
    params := ⟨params⟩, query := ⟨query⟩, fragment := ⟨fragment⟩ }

/-- `urlparse(url, scheme=default, allow_fragments=True)`. -/
def urlparsePy (url : String) (defaultScheme : String) : PyUrl :=
  match extractScheme url.data with
  | some (sch, rest) => urlparseAfterScheme ⟨sch⟩ rest
  | none => urlparseAfterScheme defaultScheme url.data

/-- `urlunsplit((scheme, netloc, url, query, fragment))`. -/
def urlunsplitPy (scheme netloc path query fragment : String) : String :=
  let url := path
  let url :=
    if netloc ≠ "" ∨ (url ≠ "" ∧ url.data.take 2 = ['/', '/']) then
      "//" ++ netloc ++ (if url ≠ "" ∧ url.data.take 1 ≠ ['/'] then "/" ++ url else url)
    else url
  let url := if scheme ≠ "" then scheme ++ ":" ++ url else url
  let url := if query ≠ "" then url ++ "?" ++ query else url
  if fragment ≠ "" then url ++ "#" ++ fragment else url

/-- `urlunparse((scheme, netloc, url, params, query, fragment))`. -/
def urlunparsePy (u : PyUrl) : String :=
  urlunsplitPy u.scheme u.netloc
    (if u.params ≠ "" then u.path ++ ";" ++ u.params else u.path) u.query u.fragment

/-- Parsing `u` (with empty default scheme) and serializing it back. -/
def reserializePy (u : String) : String :=
  urlunparsePy (urlparsePy u "")

/-- The segment loop of `urljoin`: `'..'` pops (ignoring underflow),
`'.'` is skipped, anything else is appended. -/
def resolveSegs (acc : List String) : List String → List String
  | [] => acc
  | s :: t =>
    if s = ".." then resolveSegs acc.dropLast t
    else if s = "." then resolveSegs acc t
    else resolveSegs (acc ++ [s]) t

/-- `segments[1:-1] = filter(None, segments[1:-1])`: drop empty segments,
keeping the first and last elements. -/
def filterMiddle (l : List String) : List String :=
  match l with
  | [] => []
  | x :: rest =>
    match rest.reverse with
    | [] => [x]
    | last :: midRev => x :: ((midRev.reverse.filter (· ≠ "")) ++ [last])

/-- `'/'.join(resolved_path)`. -/
def joinSlash : List String → String
  | [] => ""
  | [x] => x
  | x :: y :: rest => x ++ "/" ++ joinSlash (y :: rest)

/-- `urljoin(base, url, allow_fragments=True)`. -/
def urljoinPy (base url : String) : String :=
  if base = "" then url
  else if url = "" then base
  else
    let b := urlparsePy base ""
    let r := urlparsePy url b.scheme
    if r.scheme ≠ b.scheme ∨ ¬ strIn usesRelative r.scheme then url
    else if strIn usesNetloc r.scheme ∧ r.netloc ≠ "" then urlunparsePy r
    else
      let netloc := if strIn usesNetloc r.scheme then b.netloc else r.netloc
      if r.path = "" ∧ r.params = "" then
        urlunparsePy
          { scheme := r.scheme, netloc := netloc, path := b.path, params := b.params,
            query := if r.query = "" then b.query else r.query, fragment := r.fragment }
      else
        let baseParts := pySplit b.path '/'
        let baseParts := if baseParts.getLast? = some "" then baseParts else baseParts.dropLast
        let segments :=
          if r.path.data.take 1 = ['/'] then pySplit r.path '/'
          else filterMiddle (baseParts ++ pySplit r.path '/')
        let resolved := resolveSegs [] segments
        let resolved :=
          if segments.getLast? = some "." ∨ segments.getLast? = some ".." then resolved ++ [""]
          else resolved
        let joined := joinSlash resolved
        urlunparsePy
          { scheme := r.scheme, netloc := netloc,
            path := if joined = "" then "/" else joined,
            params := r.params, query := r.query, fragment := r.fragment }

/-! ### Pagination resolution (`get_next_page_url`) -/

/-- Python `sep.join(l)`. -/
def pyJoin (sep : String) : List String → String
  | [] => ""
  | [x] => x
  | x :: y :: rest => x ++ sep ++ pyJoin sep (y :: rest)

/-- XPath whitespace (for `normalize-space`). -/
def isXPathSpace (c : Char) : Bool :=
  c == ' ' || c == '\t' || c == '\n' || c == '\r'

/-- Split a character list at every character satisfying `p`, keeping
empty runs. -/
def splitOnPred (p : Char → Bool) : List Char → List (List Char)
  | [] => [[]]
  | c :: t =>
    if p c then [] :: splitOnPred p t
    else
      match splitOnPred p t with
      | [] => [[c]]
      | h :: r => (c :: h) :: r

/-- XPath `normalize-space(s)`: strip and collapse whitespace runs. -/
def normalizeSpace (s : String) : String :=
  pyJoin " " (((splitOnPred isXPathSpace s.data).map (⟨·⟩ : List Char → String)).filter (· ≠ ""))

/-- The first *text child* of an element given by its child forest: the
string value XPath's `normalize-space(text())` normalizes (an empty
node-set converts to `""`). -/
def firstTextChild : Node → Option String
  | .nil => none
  | .text s _ => some s
  | .elem _ _ _ sib => firstTextChild sib

/-- The predicate of `//a[contains(@class, "next") or
normalize-space(text())="下一页"]`, applied to an element and its child
forest. -/
def isNextAnchor (t : String) (a : List (String × String)) (child : Node) : Bool :=
  t == "a" &&
    (strContainsSub (classOf a) "next" ||
      normalizeSpace ((firstTextChild child).getD "") == "下一页")

/-- `hrefs[0]` of `//a[…]/@href`: the `href` of the first (document
order) matching anchor that carries an `href` attribute. -/
def firstNextHref : Node → Option String
  | .nil => none
  | .text _ sib => firstNextHref sib
  | .elem t a child sib =>
    match (if isNextAnchor t a child then List.lookup "href" a else none) with
    | some h => some h
    | none =>
      match firstNextHref child with
      | some h => some h
      | none => firstNextHref sib

/-- `get_next_page_url(document, current_url)`. -/
def get_next_page_url (doc : Node) (currentUrl : String) : Option String :=
  (firstNextHref doc).map (fun h => urljoinPy currentUrl h)

/-! ### The crawl driver (`main`)

`main`'s loop is embedded with two oracles: `fetch url referer` is the
outcome of `load_html(url, cookies, timeout, session, referer)`, and
`parse html` is `etree.HTML(html)` (`none` for an unparseable page).
`extract_shops(html_text)` is `extract_shops (parse html)`.  The state
records every `writerow` call, the URLs whose loop iteration started, how
often the next-page link was resolved, and the error that aborted the
crawl (if any). -/

/-- Outcome of one `load_html` call as seen by `main`. -/
inductive DriverFetch where
  | ok (html : String)
  | fail (msg : String)
deriving Repr, DecidableEq

/-- An error aborting `main`'s loop. -/
inductive CrawlErr where
  /-- `load_html` raised. -/
  | fetchFail (msg : String)
  /-- `RuntimeError('Hit identity verification page. …')`. -/
  | identityChallenge
deriving Repr, DecidableEq

/-- Observable state of one crawl run. -/
structure CrawlState where
  rows : List (List String)
  visited : List String
  resolveCount : Nat
  err : Option CrawlErr
deriving Repr, DecidableEq

/-- The header row written once before the loop:
`writer.writerow(['name', 'avg_price', 'recommended_dishes'])`. -/
def headerRow : List String := ["name", "avg_price", "recommended_dishes"]

/-- The data row written for one shop dict:
`[s['name'], s['avg_price'], dishes_joined]`. -/
def rowOfShop (s : Shop) : List String :=
  [s.name, s.avg_price, pyJoin "、" s.recommended_dishes]

/-- The referer used for the first page. -/
def baseReferer : String := "https://www.dianping.com/"

/-- The `while current_url:` loop of `main`.  `fuel` bounds the number of
iterations (the Python loop may run forever on an ever-growing link
chain); every theorem below holds for every fuel value. -/
def crawlLoop (parse : String → Option Node) (fetch : String → String → DriverFetch)
    (maxPages : Nat) : Nat → String → Option String → Nat → CrawlState → CrawlState
  | 0, _, _, _, st => st
  | fuel + 1, cur, prev, pageIndex, st =>
    if cur = "" then st
    else
      let pi := pageIndex + 1
      let referer := if pi = 1 then baseReferer else prev.getD ""
      let st1 : CrawlState := { st with visited := st.visited ++ [cur] }
      match fetch cur referer with
      | .fail m => { st1 with err := some (.fetchFail m) }
      | .ok html =>
        if strContainsSub html challengeMarker then
          { st1 with err := some .identityChallenge }
        else
          let st2 : CrawlState :=
            { st1 with rows := st1.rows ++ (extract_shops (parse html)).map rowOfShop }
          if maxPages ≠ 0 ∧ maxPages ≤ pi then st2
          else
            match parse html with
            | none => st2
            | some doc =>
              let st3 : CrawlState := { st2 with resolveCount := st2.resolveCount + 1 }
              match get_next_page_url doc cur with
              | none => st3
              | some nextUrl =>
                if nextUrl = "" ∨ nextUrl = cur then st3
                else crawlLoop parse fetch maxPages fuel nextUrl (some cur) pi st3

/-- One whole `main` run (after argument parsing): write the header row,
then crawl from the seed URL with `page_index = 0`. -/
def runMain (parse : String → Option Node) (fetch : String → String → DriverFetch)
    (maxPages : Nat) (fuel : Nat) (seedUrl : String) : CrawlState :=
  crawlLoop parse fetch maxPages fuel seedUrl none 0
    { rows := [headerRow], visited := [], resolveCount := 0, err := none }

/-! ### Extractor lemmas -/

/-- If no element of the forest satisfies the ancestor predicate `Q`, a
query requiring a `Q`-ancestor collects nothing. -/
theorem collectTexts_eq_nil_of_no_anc (P Q : String → List (String × String) → Bool) :
    ∀ n : Node, hasElemPred Q n = false → collectTexts P Q false false n = [] := by
  intro n
  induction n with
  | nil => intro _; rfl
  | text s sib ih =>
    intro h
    simp only [hasElemPred] at h
    simp only [collectTexts, List.nil_append, reduceIte]
    exact ih h
  | elem t a child sib ihc ihs =>
    intro h
    simp only [hasElemPred, Bool.or_eq_false_iff] at h
    obtain ⟨⟨hQ, hc⟩, hs⟩ := h
    simp only [collectTexts, Bool.and_false, Bool.false_or, hQ]
    rw [ihc hc, ihs hs]
    rfl

/-- If no element of the forest satisfies the selection predicate `P`, the
query collects nothing, whatever the ancestor flag. -/
theorem collectTexts_eq_nil_of_no_sel (P Q : String → List (String × String) → Bool) :
    ∀ (n : Node) (u : Bool), hasElemPred P n = false → collectTexts P Q false u n = [] := by
  intro n
  induction n with
  | nil => intro _ _; rfl
  | text s sib ih =>
    intro u h
    simp only [hasElemPred] at h
    simp only [collectTexts, List.nil_append, reduceIte]
    exact ih u h
  | elem t a child sib ihc ihs =>
    intro u h
    simp only [hasElemPred, Bool.or_eq_false_iff] at h
    obtain ⟨⟨hP, hc⟩, hs⟩ := h
    simp only [collectTexts, hP, Bool.false_and]
    rw [ihc _ hc, ihs _ hs]
    rfl

/-- Shorthand: a whitespace-only heading, the C2 counterexample document
`<html><body><li><h4>   </h4></li></body></html>`. -/
def c2Doc : Node :=
  .elem "html" [] (.elem "body" []
    (.elem "li" [] (.elem "h4" [] (.text "   " .nil) .nil) .nil) .nil) .nil

/-- Claim C2 is false of the code: a candidate block whose heading text is
whitespace only is *not* discarded — `extract_shops` produces a `Record`
whose `name` is the empty string for it. -/
theorem extract_shops_emits_empty_name :
    extract_shops (some c2Doc) =
      [{ name := "", avg_price := "", recommended_dishes := [] }] := by decide

/-- Claim C2 (amended): a candidate block whose heading has no text node
is discarded; a block whose heading has a text node always yields a
`Record` whose `name` is that first text trimmed — possibly empty. -/
theorem extract_name_policy (c : Node) :
    (h4Texts c = [] → shopOfForest c = none)
    ∧ (∀ t rest, h4Texts c = t :: rest → ∃ s, shopOfForest c = some s ∧ s.name = pyStrip t) := by
  constructor
  · intro h; simp [shopOfForest, h]
  · intro t rest h
    refine ⟨{ name := pyStrip t,
              avg_price := match meanPriceTexts c with | [] => "" | p :: _ => pyStrip p,
              recommended_dishes := ((recommendTexts c).map pyStrip).filter (· ≠ "") },
            ?_, rfl⟩
    simp [shopOfForest, h]

/-- A candidate whose heading text is whitespace only. -/
def c2WitForest : Node := .elem "h4" [] (.text "  " .nil) .nil

/-- Witness for `extract_name_policy` at a concrete candidate. -/
theorem extract_name_policy_w :
    ∃ s, shopOfForest c2WitForest = some s ∧ s.name = pyStrip "  " :=
  (extract_name_policy c2WitForest).2 "  " [] (by decide)

/-- Claim C6: a candidate with a heading but no price-marker anchor gets
`avg_price = ""`; one without a recommend-marker container (or without
recommend-item anchors) gets no dishes; in general the dishes are the
trimmed non-empty collected texts in document order. -/
theorem extract_price_dishes_policy (c : Node) (s : Shop) (hs : shopOfForest c = some s) :
    (hasElemPred isMeanPriceAnchor c = false → s.avg_price = "")
    ∧ (hasElemPred isRecommendDiv c = false ∨ hasElemPred isRecommendClickAnchor c = false →
        s.recommended_dishes = [])
    ∧ s.recommended_dishes = ((recommendTexts c).map pyStrip).filter (· ≠ "") := by
  cases hT : h4Texts c with
  | nil => simp [shopOfForest, hT] at hs
  | cons t rest =>
    simp only [shopOfForest, hT, Option.some.injEq] at hs
    subst hs
    refine ⟨?_, ?_, rfl⟩
    · intro hp
      have hm : meanPriceTexts c = [] :=
        collectTexts_eq_nil_of_no_anc isBTag isMeanPriceAnchor c hp
      simp [hm]
    · intro hd
      have hr : recommendTexts c = [] := by
        rcases hd with hd | hd
        · exact collectTexts_eq_nil_of_no_anc isRecommendClickAnchor isRecommendDiv c hd
        · exact collectTexts_eq_nil_of_no_sel isRecommendClickAnchor isRecommendDiv c false hd
      simp [hr]

/-- A candidate with a heading only. -/
def c6WitForest : Node := .elem "h4" [] (.text "X" .nil) .nil

/-- Witness for `extract_price_dishes_policy` at a concrete candidate. -/
theorem extract_price_dishes_policy_w :
    ∃ s, shopOfForest c6WitForest = some s ∧ s.avg_price = "" ∧ s.recommended_dishes = [] := by
  have h := extract_price_dishes_policy c6WitForest
    { name := "X", avg_price := "", recommended_dishes := [] } (by decide)
  exact ⟨_, by decide, h.1 (by decide), h.2.1 (Or.inl (by decide))⟩

/-- Claim C7: extraction is total — an unparseable page and a page with
no qualifying block both give the empty sequence, and each qualifying
block yields at most one record (malformed ones are dropped, never an
error). -/
theorem extract_shops_safe (d : Option Node) :
    (d = none → extract_shops d = [])
    ∧ (∀ root, d = some root → liCandidates root = [] → extract_shops d = [])
    ∧ (∀ root, d = some root → (extract_shops d).length ≤ (liCandidates root).length) := by
  refine ⟨?_, ?_, ?_⟩
  · rintro rfl; rfl
  · rintro root rfl h
    simp [extract_shops, h]
  · rintro root rfl
    simp only [extract_shops]
    exact List.length_filterMap_le _ _

/-- A document with no `li` at all. -/
def c7Doc : Node := .elem "html" [] (.text "no lists here" .nil) .nil

/-- Witness for `extract_shops_safe`: the unparseable page and a concrete
page with zero qualifying blocks. -/
theorem extract_shops_safe_w :
    extract_shops none = [] ∧ extract_shops (some c7Doc) = [] :=
  ⟨(extract_shops_safe none).1 rfl,
   (extract_shops_safe (some c7Doc)).2.1 c7Doc rfl (by decide)⟩

/-! ### Cookie-parser lemmas -/

/-- Searching for a one-character needle is `List.contains`. -/
theorem charsContain_singleton (c : Char) : ∀ l : List Char, charsContain [c] l = l.contains c := by
  intro l
  induction l with
  | nil => rfl
  | cons x t ih =>
    cases h : c == x <;>
      simp [charsContain, List.isPrefixOf, List.contains, List.elem, h, ih]

/-- `split` never returns the empty list. -/
theorem pySplitChars_ne_nil (sep : Char) : ∀ l, pySplitChars sep l ≠ [] := by
  intro l
  induction l with
  | nil => simp [pySplitChars]
  | cons c t _ =>
    by_cases h : (c == sep) = true
    · simp [pySplitChars, h]
    · simp only [pySplitChars, h]
      cases hp : pySplitChars sep t <;> simp

/-- Unfolding of `split`: the first segment is everything before the first
separator; the rest is the split of what follows it. -/
theorem pySplitChars_eq (sep : Char) : ∀ l : List Char,
    pySplitChars sep l =
      match l.dropWhile (fun c => c != sep) with
      | [] => [l]
      | _ :: rest => l.takeWhile (fun c => c != sep) :: pySplitChars sep rest := by
  intro l
  induction l with
  | nil => rfl
  | cons c t ih =>
    by_cases h : (c == sep) = true
    · have hb : (c != sep) = false := by simp [bne, h]
      simp [pySplitChars, h, List.dropWhile, List.takeWhile, hb]
    · have hb : (c != sep) = true := by simp [bne, h]
      cases hd : t.dropWhile (fun c => c != sep) with
      | nil =>
        have ht : pySplitChars sep t = [t] := by rw [ih, hd]
        simp [pySplitChars, h, ht, List.dropWhile, List.takeWhile, hb, hd]
      | cons d rest =>
        have ht : pySplitChars sep t =
            t.takeWhile (fun c => c != sep) :: pySplitChars sep rest := by rw [ih, hd]
        simp [pySplitChars, h, ht, List.dropWhile, List.takeWhile, hb, hd]

/-- The first element of a Python split. -/
theorem pySplit_head (s : String) (sep : Char) :
    (pySplit s sep).headD "" = ⟨s.data.takeWhile (fun c => c != sep)⟩ := by
  unfold pySplit
  rw [pySplitChars_eq]
  cases hd : s.data.dropWhile (fun c => c != sep) with
  | nil =>
    have : s.data.takeWhile (fun c => c != sep) = s.data := by
      have h2 : s.data.takeWhile (fun c => c != sep)
          ++ s.data.dropWhile (fun c => c != sep) = s.data :=
        List.takeWhile_append_dropWhile _ _
      rw [hd] at h2
      simpa using h2
    simp [this]
  | cons d rest => simp

/-- The second element of a Python split, when the separator occurs. -/
theorem pySplit_second (s : String) (sep : Char) (h : s.data.contains sep = true) :
    (pySplit s sep).getD 1 "" =
      ⟨((s.data.dropWhile (fun c => c != sep)).drop 1).takeWhile (fun c => c != sep)⟩ := by
  have hmem : sep ∈ s.data := by
    have h2 : List.elem sep s.data = true := h
    exact List.elem_iff.mp h2
  cases hd : s.data.dropWhile (fun c => c != sep) with
  | nil =>
    exfalso
    rw [List.dropWhile_eq_nil_iff] at hd
    have := hd sep hmem
    simp [bne] at this
  | cons d rest =>
    have hh := pySplit_head ⟨rest⟩ sep
    unfold pySplit at hh
    unfold pySplit
    rw [pySplitChars_eq, hd]
    cases hp : pySplitChars sep rest with
    | nil => exact absurd hp (pySplitChars_ne_nil sep rest)
    | cons a l =>
      rw [hp] at hh
      simp only [List.map_cons, List.headD_cons] at hh
      simp [hp, hh]

/-- Claim C9: the cookie parser drops segments without `'='` and maps the
trimmed text before the first `'='` to the trimmed text between the first
and second `'='`, silently discarding anything after a second `'='`. -/
theorem format_cookies_spec (s : String) : _format_cookies s = cookieSpecModel s := by
  unfold _format_cookies cookieSpecModel
  have key : ∀ pair : String, strContainsSub pair "=" = pair.data.contains '=' := fun pair =>
    charsContain_singleton '=' pair.data
  generalize pySplit s ';' = segs
  induction segs with
  | nil => rfl
  | cons pair t ih =>
    simp only [key] at ih ⊢
    simp only [List.filter_cons, List.filterMap_cons]
    by_cases h : pair.data.contains '=' = true
    · simp only [h, if_true, List.map_cons]
      rw [ih]
      have h1 : (pySplit pair '=').headD "" = beforeFirstEq pair := pySplit_head pair '='
      have h2 : (pySplit pair '=').getD 1 "" = betweenFirstSecondEq pair :=
        pySplit_second pair '=' h
      rw [h1, h2]
    · simp only [h, if_false, Bool.false_eq_true]
      exact ih

/-! ### Fetcher lemmas -/

/-- Attempt accounting for the retry loop: starting at attempt `i` with
`i + rem = 3`, the loop performs between `i + 1` (when fuel remains) and
`3` attempts in total, and its recorded sleeps are exactly
`1.5 + attemptIndex` for the consecutive attempt indices it slept after. -/
theorem loadHtmlAux_trace (responses : Nat → HttpResp) :
    ∀ rem i lastErr, i + rem = 3 →
      i ≤ (loadHtmlAux responses rem i lastErr).attempts
      ∧ (0 < rem → i < (loadHtmlAux responses rem i lastErr).attempts)
      ∧ (loadHtmlAux responses rem i lastErr).attempts ≤ 3
      ∧ (loadHtmlAux responses rem i lastErr).sleeps =
          (List.range' i ((loadHtmlAux responses rem i lastErr).attempts - 1 - i)).map
            (fun j : Nat => (3 : ℚ) / 2 + (j : ℚ)) := by
  intro rem
  induction rem with
  | zero =>
    intro i lastErr h
    have hi : i = 3 := by omega
    subst hi
    have h0 : (3 : Nat) - 1 - 3 = 0 := by omega
    simp [loadHtmlAux, h0]
  | succ rem ih =>
    intro i lastErr h
    have hi2 : i ≤ 2 := by omega
    simp only [loadHtmlAux]
    cases hR : responses i with
    | netErr d =>
      have h0 : i + 1 - 1 - i = 0 := by omega
      simp [h0]
      omega
    | mk s body =>
      by_cases hOk : s = 200 ∧ ¬ strContainsSub body challengeMarker = true
      · have h0 : i + 1 - 1 - i = 0 := by omega
        simp [hOk, h0]
        omega
      · simp only [if_neg hOk]
        by_cases hLt : i < 2
        · simp only [if_pos hLt]
          have hrec := ih (i + 1) (some (failErrOf (.mk s body))) (by omega)
          obtain ⟨ha1, ha2, ha3, hsl⟩ := hrec
          have hrem : 0 < rem := by omega
          have hstrict := ha2 hrem
          refine ⟨by omega, fun _ => by omega, by omega, ?_⟩
          rw [hsl]
          have hk : (loadHtmlAux responses rem (i + 1) (some (failErrOf (.mk s body)))).attempts
              - 1 - i =
              ((loadHtmlAux responses rem (i + 1) (some (failErrOf (.mk s body)))).attempts
              - 1 - (i + 1)) + 1 := by omega
          rw [hk, List.range'_succ, List.map_cons]
        · simp only [if_neg hLt]
          have hieq : i = 2 := by omega
          have hrem : rem = 0 := by omega
          subst hieq; subst hrem
          have h0 : (3 : Nat) - 1 - 2 = 0 := by omega
          simp [loadHtmlAux, h0]

/-- When every attempt fails at the HTTP level (non-200 status or
challenge 200 — never a raised network exception), the loop runs all
three attempts and raises the error recorded for the *last* response. -/
theorem loadHtmlAux_exhaust (responses : Nat → HttpResp) :
    ∀ rem i lastErr, i + rem = 3 → 0 < rem →
      (∀ k, k < 3 → isHttpFailure (responses k) = true) →
      (loadHtmlAux responses rem i lastErr).result = .err (failErrOf (responses 2))
      ∧ (loadHtmlAux responses rem i lastErr).attempts = 3 := by
  intro rem
  induction rem with
  | zero => intro i lastErr _ h0; exact absurd h0 (by omega)
  | succ rem ih =>
    intro i lastErr h _ hall
    have hi2 : i ≤ 2 := by omega
    have hf := hall i (by omega)
    simp only [loadHtmlAux]
    cases hR : responses i with
    | netErr d => rw [hR] at hf; simp [isHttpFailure] at hf
    | mk s body =>
      rw [hR] at hf
      have hOk : ¬ (s = 200 ∧ ¬ strContainsSub body challengeMarker = true) := by
        simp only [isHttpFailure, Bool.or_eq_true, bne_iff_ne] at hf
        rcases hf with hf | hf
        · exact fun hc => hf hc.1
        · exact fun hc => hc.2 hf
      simp only [if_neg hOk]
      by_cases hLt : i < 2
      · simp only [if_pos hLt]
        exact ih (i + 1) (some (failErrOf (.mk s body))) (by omega) (by omega) hall
      · simp only [if_neg hLt]
        have hieq : i = 2 := by omega
        have hrem : rem = 0 := by omega
        subst hieq; subst hrem
        rw [← hR]
        simp [loadHtmlAux]

/-- Claim C5: `load_html` performs at most 3 attempts; after each
unsuccessful attempt that is not the last it sleeps `1.5 + attemptIndex`
seconds (the recorded sleeps are exactly `1.5 + k` for the 0-based indices
`k` of the non-final attempts); and when every attempt fails at the HTTP
level the fetch raises the error built from the last observed response —
its HTTP status, or the challenge description. -/
theorem load_html_retry_policy (responses : Nat → HttpResp) :
    (loadHtml responses).attempts ≤ 3
    ∧ (loadHtml responses).sleeps =
        (List.range ((loadHtml responses).attempts - 1)).map
          (fun j : Nat => (3 : ℚ) / 2 + (j : ℚ))
    ∧ ((∀ k, k < 3 → isHttpFailure (responses k) = true) →
        (loadHtml responses).result = .err (failErrOf (responses 2))) := by
  obtain ⟨_, _, h3, h4⟩ := loadHtmlAux_trace responses 3 0 none (by omega)
  refine ⟨h3, ?_, ?_⟩
  · rw [List.range_eq_range']
    simpa using h4
  · intro hall
    exact (loadHtmlAux_exhaust responses 3 0 none (by omega) (by omega) hall).1

/-- A server that always answers HTTP 500. -/
def c5Responses : Nat → HttpResp := fun _ => .mk 500 "server error"

/-- Witness for `load_html_retry_policy` on the always-500 server: three
attempts, two backoff sleeps, and the final error carries status 500. -/
theorem load_html_retry_policy_w :
    (loadHtml c5Responses).attempts ≤ 3
    ∧ (loadHtml c5Responses).sleeps =
        (List.range ((loadHtml c5Responses).attempts - 1)).map
          (fun j : Nat => (3 : ℚ) / 2 + (j : ℚ))
    ∧ (loadHtml c5Responses).result = .err (failErrOf (c5Responses 2)) := by
  have h := load_html_retry_policy c5Responses
  exact ⟨h.1, h.2.1, h.2.2 (by decide)⟩

/-- A server that always answers 200 with a challenge page. -/
def c1Responses : Nat → HttpResp := fun _ => .mk 200 "请完成身份核实后继续访问"

/-- Claim C1 is false of the code: on a first-attempt challenge page the
fetcher does *not* stop — it performs all 3 attempts (sleeping twice)
with the same cookie before failing with the credential-rejection error. -/
theorem load_html_retries_challenge :
    (loadHtml c1Responses).attempts = 3
    ∧ (loadHtml c1Responses).sleeps.length = 2
    ∧ (loadHtml c1Responses).result = .err .challenge := by
  refine ⟨by decide, by decide, by decide⟩

/-- Claim C1 (amended): a challenge-page 200 is treated like any other
failed attempt — the credential-rejection error is recorded and the fetch
is retried with the same cookie up to the 3-attempt cap; when every
attempt yields a challenge page the fetch fails with the
credential-rejection error after 3 attempts and 2 backoff sleeps, and
challenge text is never returned as a success. -/
theorem load_html_challenge_policy (responses : Nat → HttpResp)
    (hc : ∀ k, k < 3 → isChallengeResp (responses k) = true) :
    (loadHtml responses).result = .err .challenge
    ∧ (loadHtml responses).attempts = 3
    ∧ (loadHtml responses).sleeps.length = 2 := by
  have hfail : ∀ k, k < 3 → isHttpFailure (responses k) = true := by
    intro k hk
    have := hc k hk
    cases hR : responses k with
    | netErr d => rw [hR] at this; simp [isChallengeResp] at this
    | mk s body =>
      rw [hR] at this
      simp only [isChallengeResp, Bool.and_eq_true, beq_iff_eq] at this
      simp [isHttpFailure, this.2]
  obtain ⟨hres, hatt⟩ := loadHtmlAux_exhaust responses 3 0 none (by omega) (by omega) hfail
  have h2 := hc 2 (by omega)
  have herr : failErrOf (responses 2) = .challenge := by
    cases hR : responses 2 with
    | netErr d => rw [hR] at h2; simp [isChallengeResp] at h2
    | mk s body =>
      rw [hR] at h2
      simp only [isChallengeResp, Bool.and_eq_true, beq_iff_eq] at h2
      simp [failErrOf, h2.1]
  obtain ⟨_, _, _, hsl⟩ := loadHtmlAux_trace responses 3 0 none (by omega)
  refine ⟨?_, ?_, ?_⟩
  · unfold loadHtml
    rw [hres, herr]
  · unfold loadHtml
    exact hatt
  · unfold loadHtml
    rw [hsl, List.length_map, List.length_range', hatt]

/-- Witness for `load_html_challenge_policy` on the always-challenge
server. -/
theorem load_html_challenge_policy_w :
    (loadHtml c1Responses).result = .err .challenge
    ∧ (loadHtml c1Responses).attempts = 3
    ∧ (loadHtml c1Responses).sleeps.length = 2 :=
  load_html_challenge_policy c1Responses (by decide)

/-! ### Driver lemmas -/

/-- Every row the loop appends is a record row of some extracted shop. -/
theorem crawlLoop_rows (parse : String → Option Node) (fetch : String → String → DriverFetch)
    (maxPages : Nat) :
    ∀ fuel cur prev pi st, ∃ extra,
      (crawlLoop parse fetch maxPages fuel cur prev pi st).rows = st.rows ++ extra
      ∧ ∀ r ∈ extra, ∃ s : Shop, r = rowOfShop s := by
  intro fuel
  induction fuel with
  | zero =>
    intro cur prev pi st
    exact ⟨[], by simp [crawlLoop], by simp⟩
  | succ fuel ih =>
    intro cur prev pi st
    by_cases hcur : cur = ""
    · exact ⟨[], by simp [crawlLoop, hcur], by simp⟩
    · simp only [crawlLoop, if_neg hcur]
      split
      · exact ⟨[], by simp, by simp⟩
      · rename_i html _
        split
        · exact ⟨[], by simp, by simp⟩
        · refine ?_
          have hmap : ∀ r ∈ (extract_shops (parse html)).map rowOfShop,
              ∃ s : Shop, r = rowOfShop s := by
            intro r hr
            obtain ⟨s, _, hs⟩ := List.mem_map.mp hr
            exact ⟨s, hs.symm⟩
          split
          · exact ⟨(extract_shops (parse html)).map rowOfShop, by simp, hmap⟩
          · split
            · exact ⟨(extract_shops (parse html)).map rowOfShop, by simp, hmap⟩
            · split
              · exact ⟨(extract_shops (parse html)).map rowOfShop, by simp, hmap⟩
              · rename_i nextUrl _
                split
                · exact ⟨(extract_shops (parse html)).map rowOfShop, by simp, hmap⟩
                · obtain ⟨extra2, he, hp⟩ := ih nextUrl (some cur) (pi + 1) _
                  refine ⟨(extract_shops (parse html)).map rowOfShop ++ extra2, ?_, ?_⟩
                  · rw [he]
                    simp
                  · intro r hr
                    rcases List.mem_append.mp hr with hr | hr
                    · exact hmap r hr
                    · exact hp r hr

/-- Page-count bound: starting below the ceiling, the loop visits at most
`maxPages - pageIndex` further pages. -/
theorem crawlLoop_visited_le (parse : String → Option Node)
    (fetch : String → String → DriverFetch) (maxPages : Nat) (hm : 0 < maxPages) :
    ∀ fuel cur prev pi st, pi < maxPages →
      (crawlLoop parse fetch maxPages fuel cur prev pi st).visited.length
        ≤ st.visited.length + (maxPages - pi) := by
  intro fuel
  induction fuel with
  | zero =>
    intro cur prev pi st hpi
    simp only [crawlLoop]
    omega
  | succ fuel ih =>
    intro cur prev pi st hpi
    by_cases hcur : cur = ""
    · simp only [crawlLoop, if_pos hcur]
      omega
    · simp only [crawlLoop, if_neg hcur]
      split
      · simp
        omega
      · split
        · simp
          omega
        · split
          · simp
            omega
          · rename_i hceil
            have hlt : pi + 1 < maxPages := by
              rcases Decidable.not_and_iff_or_not.mp hceil with hc | hc
              · omega
              · omega
            split
            · simp
              omega
            · split
              · simp
                omega
              · split
                · simp
                  omega
                · refine le_trans (ih _ _ _ _ hlt) ?_
                  simp
                  omega

/-- Next-link resolutions happen only on pages that passed the ceiling
check: below the ceiling, at most `maxPages - 1 - pageIndex` more. -/
theorem crawlLoop_resolve_le (parse : String → Option Node)
    (fetch : String → String → DriverFetch) (maxPages : Nat) (hm : 0 < maxPages) :
    ∀ fuel cur prev pi st, pi < maxPages →
      (crawlLoop parse fetch maxPages fuel cur prev pi st).resolveCount
        ≤ st.resolveCount + (maxPages - 1 - pi) := by
  intro fuel
  induction fuel with
  | zero =>
    intro cur prev pi st hpi
    simp only [crawlLoop]
    omega
  | succ fuel ih =>
    intro cur prev pi st hpi
    by_cases hcur : cur = ""
    · simp only [crawlLoop, if_pos hcur]
      omega
    · simp only [crawlLoop, if_neg hcur]
      split
      · simp
      · split
        · simp
        · split
          · simp
          · rename_i hceil
            have hlt : pi + 1 < maxPages := by
              rcases Decidable.not_and_iff_or_not.mp hceil with hc | hc
              · omega
              · omega
            split
            · simp
            · split
              · simp
                omega
              · split
                · simp
                  omega
                · refine le_trans (ih _ _ _ _ hlt) ?_
                  simp
                  omega

/-- The visited URLs extend the state's list by a chain of pairwise
distinct neighbours starting at the current URL. -/
theorem crawlLoop_chain (parse : String → Option Node)
    (fetch : String → String → DriverFetch) (maxPages : Nat) :
    ∀ fuel cur prev pi st, ∃ tail,
      (crawlLoop parse fetch maxPages fuel cur prev pi st).visited = st.visited ++ tail
      ∧ (tail = [] ∨ ∃ t2, tail = cur :: t2 ∧ List.Chain' (· ≠ ·) (cur :: t2)) := by
  intro fuel
  induction fuel with
  | zero =>
    intro cur prev pi st
    exact ⟨[], by simp [crawlLoop], Or.inl rfl⟩
  | succ fuel ih =>
    intro cur prev pi st
    by_cases hcur : cur = ""
    · exact ⟨[], by simp [crawlLoop, hcur], Or.inl rfl⟩
    · simp only [crawlLoop, if_neg hcur]
      have single : (∃ t2, [cur] = cur :: t2 ∧ List.Chain' (· ≠ ·) (cur :: t2)) :=
        ⟨[], rfl, List.chain'_singleton cur⟩
      split
      · exact ⟨[cur], by simp, Or.inr single⟩
      · split
        · exact ⟨[cur], by simp, Or.inr single⟩
        · split
          · exact ⟨[cur], by simp, Or.inr single⟩
          · split
            · exact ⟨[cur], by simp, Or.inr single⟩
            · split
              · exact ⟨[cur], by simp, Or.inr single⟩
              · rename_i nextUrl hnd
                split
                · exact ⟨[cur], by simp, Or.inr single⟩
                · rename_i hne
                  obtain ⟨tail2, he, hc⟩ := ih nextUrl (some cur) (pi + 1) _
                  refine ⟨cur :: tail2, ?_, Or.inr ⟨tail2, rfl, ?_⟩⟩
                  · rw [he]
                    simp
                  · rcases hc with rfl | ⟨t3, rfl, hch⟩
                    · exact List.chain'_singleton cur
                    · rw [List.chain'_cons]
                      refine ⟨?_, hch⟩
                      intro hEq
                      exact hne (Or.inr hEq.symm)

/-- When extraction yields no record on any page, the loop writes no row. -/
theorem crawlLoop_rows_const (parse : String → Option Node)
    (fetch : String → String → DriverFetch) (maxPages : Nat)
    (hz : ∀ html, extract_shops (parse html) = []) :
    ∀ fuel cur prev pi st,
      (crawlLoop parse fetch maxPages fuel cur prev pi st).rows = st.rows := by
  intro fuel
  induction fuel with
  | zero => intro cur prev pi st; simp [crawlLoop]
  | succ fuel ih =>
    intro cur prev pi st
    by_cases hcur : cur = ""
    · simp [crawlLoop, hcur]
    · simp only [crawlLoop, if_neg hcur]
      split
      · simp
      · rename_i html _
        split
        · simp
        · simp only [hz html, List.map_nil, List.append_nil]
          split
          · simp
          · split
            · simp
            · split
              · simp
              · split
                · simp
                · rw [ih]

/-- Claim C4: with a positive `maxPages` the driver starts at most
`maxPages` page iterations, resolves the next link only on pages below
the ceiling (hence at most `maxPages - 1` times), and never advances to a
next URL equal to the current one — consecutive visited URLs differ. -/
theorem crawl_respects_max_pages (parse : String → Option Node)
    (fetch : String → String → DriverFetch) (maxPages fuel : Nat) (seed : String)
    (hm : 0 < maxPages) :
    (runMain parse fetch maxPages fuel seed).visited.length ≤ maxPages
    ∧ List.Chain' (· ≠ ·) (runMain parse fetch maxPages fuel seed).visited
    ∧ (runMain parse fetch maxPages fuel seed).resolveCount ≤ maxPages - 1 := by
  refine ⟨?_, ?_, ?_⟩
  · have := crawlLoop_visited_le parse fetch maxPages hm fuel seed none 0
      { rows := [headerRow], visited := [], resolveCount := 0, err := none } hm
    simpa [runMain] using this
  · obtain ⟨tail, he, hc⟩ := crawlLoop_chain parse fetch maxPages fuel seed none 0
      { rows := [headerRow], visited := [], resolveCount := 0, err := none }
    unfold runMain
    rw [he]
    simp only [List.nil_append]
    rcases hc with rfl | ⟨t2, rfl, hch⟩
    · exact List.chain'_nil
    · exact hch
  · have := crawlLoop_resolve_le parse fetch maxPages hm fuel seed none 0
      { rows := [headerRow], visited := [], resolveCount := 0, err := none } hm
    simpa [runMain] using this

/-- Witness for `crawl_respects_max_pages` on a concrete two-page crawl
configuration. -/
theorem crawl_respects_max_pages_w :
    (runMain (fun _ => none) (fun _ _ => .ok "page") 2 5 "http://a").visited.length ≤ 2
    ∧ List.Chain' (· ≠ ·) (runMain (fun _ => none) (fun _ _ => .ok "page") 2 5 "http://a").visited
    ∧ (runMain (fun _ => none) (fun _ _ => .ok "page") 2 5 "http://a").resolveCount ≤ 1 :=
  crawl_respects_max_pages (fun _ => none) (fun _ _ => .ok "page") 2 5 "http://a" (by omega)

/-- Claim C3 is false of the code as the spec words it: the header row
written by `main` is `name,avg_price,recommended_dishes` — the middle
column is named `avg_price`, not `average_price`. -/
theorem header_names_columns :
    (runMain (fun _ => none) (fun _ _ => DriverFetch.fail "e") 0 1 "http://a").rows
      = [["name", "avg_price", "recommended_dishes"]]
    ∧ ["name", "avg_price", "recommended_dishes"]
      ≠ ["name", "average_price", "recommended_dishes"] :=
  ⟨by decide, by decide⟩

/-- Claim C3 (amended): every run writes exactly one header row, first,
naming the columns `name,avg_price,recommended_dishes`; every later row
is the record row of some extracted shop. -/
theorem header_then_records (parse : String → Option Node)
    (fetch : String → String → DriverFetch) (maxPages fuel : Nat) (seed : String) :
    ∃ t, (runMain parse fetch maxPages fuel seed).rows
        = ["name", "avg_price", "recommended_dishes"] :: t
      ∧ ∀ r ∈ t, ∃ s : Shop, r = rowOfShop s := by
  obtain ⟨extra, he, hp⟩ := crawlLoop_rows parse fetch maxPages fuel seed none 0
    { rows := [headerRow], visited := [], resolveCount := 0, err := none }
  exact ⟨extra, by rw [runMain, he]; rfl, hp⟩

/-- Witness for `header_then_records` on a concrete failed crawl. -/
theorem header_then_records_w :
    ∃ t, (runMain (fun _ => none) (fun _ _ => DriverFetch.fail "e") 0 1 "http://a").rows
        = ["name", "avg_price", "recommended_dishes"] :: t
      ∧ ∀ r ∈ t, ∃ s : Shop, r = rowOfShop s :=
  header_then_records (fun _ => none) (fun _ _ => DriverFetch.fail "e") 0 1 "http://a"

/-- Claim C10: the header row is the first row of every run (it is written
before any fetch); a run whose first fetch fails, or that extracts zero
records throughout, leaves exactly the header row. -/
theorem header_written_first (parse : String → Option Node)
    (fetch : String → String → DriverFetch) (maxPages fuel : Nat) (seed : String) :
    (runMain parse fetch maxPages fuel seed).rows.head? = some headerRow
    ∧ (∀ m, 0 < fuel → seed ≠ "" → fetch seed baseReferer = .fail m →
        (runMain parse fetch maxPages fuel seed).rows = [headerRow]
        ∧ (runMain parse fetch maxPages fuel seed).err = some (.fetchFail m))
    ∧ ((∀ html, extract_shops (parse html) = []) →
        (runMain parse fetch maxPages fuel seed).rows = [headerRow]) := by
  refine ⟨?_, ?_, ?_⟩
  · obtain ⟨extra, he, _⟩ := crawlLoop_rows parse fetch maxPages fuel seed none 0
      { rows := [headerRow], visited := [], resolveCount := 0, err := none }
    rw [runMain, he]
    rfl
  · intro m hf hseed hfail
    cases fuel with
    | zero => exact absurd hf (by omega)
    | succ fuel =>
      unfold runMain crawlLoop
      simp only [if_neg hseed]
      rw [if_pos trivial, hfail]
      exact ⟨rfl, rfl⟩
  · intro hz
    rw [runMain, crawlLoop_rows_const parse fetch maxPages hz]

/-- Witness for `header_written_first`: a run whose very first fetch
fails leaves exactly the header row and records the fetch error. -/
theorem header_written_first_w :
    (runMain (fun _ => none) (fun _ _ => DriverFetch.fail "boom") 0 1 "http://a").rows
      = [headerRow]
    ∧ (runMain (fun _ => none) (fun _ _ => DriverFetch.fail "boom") 0 1 "http://a").err
      = some (.fetchFail "boom") := by
  have h := header_written_first (fun _ => none) (fun _ _ => DriverFetch.fail "boom") 0 1 "http://a"
  exact h.2.1 "boom" (by omega) (by decide) rfl

/-! ### URL-resolution lemmas -/

/-- `urlparse` keeps the scheme it was handed. -/
theorem urlparseAfterScheme_scheme (s : String) (rest : List Char) :
    (urlparseAfterScheme s rest).scheme = s := by
  unfold urlparseAfterScheme
  repeat' split
  all_goals rfl

/-- When the URL carries its own scheme, the default scheme passed to
`urlparse` is irrelevant. -/
theorem urlparsePy_default (url d : String) (h : (urlparsePy url "").scheme ≠ "") :
    urlparsePy url d = urlparsePy url "" := by
  unfold urlparsePy at *
  cases hE : extractScheme url.data with
  | some p => simp only [hE]
  | none =>
    exfalso
    apply h
    simp only [hE]
    exact urlparseAfterScheme_scheme "" url.data

/-- Every scheme of `uses_relative` is also in `uses_netloc`. -/
theorem usesRelative_subset_usesNetloc (s : String) (h : strIn usesRelative s = true) :
    strIn usesNetloc s = true := by
  simp only [strIn, usesRelative, List.any_eq_true] at h
  obtain ⟨x, hx, hb⟩ := h
  have hxs : x = s := by simpa using hb
  subst hxs
  fin_cases hx <;> decide

/-- Claim C8 is false of the code as worded: `HTTP://b/c` is an absolute
href (it parses with scheme `http` and netloc `b`), yet resolving it
against `http://a/x` re-serializes it with the scheme lowercased. -/
theorem urljoin_not_literally_idempotent :
    (urlparsePy "HTTP://b/c" "").scheme ≠ ""
    ∧ (urlparsePy "HTTP://b/c" "").netloc ≠ ""
    ∧ urljoinPy "http://a/x" "HTTP://b/c" = "http://b/c"
    ∧ urljoinPy "http://a/x" "HTTP://b/c" ≠ "HTTP://b/c" :=
  ⟨by decide, by decide, by decide, by decide⟩

/-- Claim C8 (amended): resolving an absolute href (nonempty scheme and
netloc) against any base returns it *unchanged whenever it is a fixed
point of parse-then-serialize* (in particular: lowercase scheme, no
dangling empty `?`/`#`); otherwise only that equivalent re-serialization
is returned.  Proved for URLs within the model's scope (no control
characters, brackets or non-ASCII netloc). -/
theorem urljoin_absolute_fixed (base href : String)
    (h1 : (urlparsePy href "").scheme ≠ "")
    (h2 : (urlparsePy href "").netloc ≠ "")
    (h3 : reserializePy href = href) :
    urljoinPy base href = href := by
  by_cases hb : base = ""
  · unfold urljoinPy
    rw [if_pos hb]
  · have hh : href ≠ "" := by
      intro hE
      rw [hE] at h2
      exact h2 (by decide)
    unfold urljoinPy
    rw [if_neg hb, if_neg hh]
    simp only []
    rw [urlparsePy_default href (urlparsePy base "").scheme h1]
    by_cases hc : (urlparsePy href "").scheme ≠ (urlparsePy base "").scheme
        ∨ ¬ strIn usesRelative (urlparsePy href "").scheme = true
    · rw [if_pos hc]
    · rw [if_neg hc]
      push_neg at hc
      have hnet : strIn usesNetloc (urlparsePy href "").scheme = true :=
        usesRelative_subset_usesNetloc _ hc.2
      rw [if_pos ⟨hnet, h2⟩]
      exact h3

/-- Witness for `urljoin_absolute_fixed` at a canonical absolute href. -/
theorem urljoin_absolute_fixed_w :
    urljoinPy "https://www.dianping.com/shanghai/ch10/r854x81" "http://example.com/a?b#c"
      = "http://example.com/a?b#c" :=
  urljoin_absolute_fixed "https://www.dianping.com/shanghai/ch10/r854x81"
    "http://example.com/a?b#c" (by decide) (by decide) (by decide)
